import Mathlib

/-!
Verification of the comet deployment core: the asset-configuration codec
(`packAssetConfig` and its helpers from the configuration module), the
migration subset solver (`subsets` / `MigrationConstraint.solve`), and the
idempotent guarded deployment actions of the goerli/usdc deployment script.

Numbers that are TypeScript `number` values (percentages, counts) are
modelled as exact rationals (`ℚ`), as the specification describes them
("a rational in [0.0, 1.0]"); `bigint` values are modelled as `Int`
(JavaScript bigints are arbitrary-precision; `/` on bigints truncates
toward zero, which is `Int.tdiv`, and `x << k` for `k ≥ 0` is `x * 2 ^ k`).
Strings are modelled as Lean `String`s.
-/

namespace Comet

/-- Error taxonomy of the codec: `invalidAddress` for the `expected address`
throw in `address`, `outOfRange` for the percentage range throws in
`percentage`, and `syntaxError` for the `SyntaxError` thrown by the
JavaScript `BigInt(string)` constructor on an unparsable string. -/
inductive CodecError : Type where
  | invalidAddress : CodecError
  | outOfRange : CodecError
  | syntaxError : CodecError
deriving DecidableEq, Repr

/-- Character class of the regex `[a-fA-F0-9]` used by `isAddress`. -/
def isHexChar (c : Char) : Bool :=
  (48 ≤ c.toNat && c.toNat ≤ 57) ||
    (97 ≤ c.toNat && c.toNat ≤ 102) ||
    (65 ≤ c.toNat && c.toNat ≤ 70)

/-- Embedding of `isAddress`: the string matches `^0x[a-fA-F0-9]{40}$`,
i.e. it has length 42, starts with `0x`, and the remaining 40 characters
are hexadecimal digits. -/
def isAddress (a : String) : Bool :=
  (a.length == 42) && (a.take 2 == "0x") && (a.drop 2).toList.all isHexChar

/-- Embedding of `address`: return the string unchanged if it is an
address, otherwise throw (`expected address, got ...`). -/
def address (a : String) : Except CodecError String :=
  if isAddress a then Except.ok a else Except.error CodecError.invalidAddress

/-- Embedding of `floor(n) = BigInt(Math.floor(n))` on exact rationals. -/
def floor (n : ℚ) : Int :=
  ⌊n⌋

/-- Embedding of `number(n, checkRange = true) = floor(Number(n))`; the
`checkRange` argument is accepted and ignored, as in the source. -/
def number (n : ℚ) (checkRange : Bool := true) : Int :=
  floor n

/-- Embedding of `percentage(n, checkRange = true)`: reject values
greater than `1.0` or less than `0`, then scale by `10^18` and floor. -/
def percentage (n : ℚ) (checkRange : Bool := true) : Except CodecError Int :=
  if checkRange = true ∧ 1 < n then Except.error CodecError.outOfRange
  else if checkRange = true ∧ n < 0 then Except.error CodecError.outOfRange
  else Except.ok (floor (n * 10 ^ 18))

/-- Numeric value of one hexadecimal digit character (0 on other input;
only applied to hexadecimal digits). -/
def hexDigitVal (c : Char) : Nat :=
  if 48 ≤ c.toNat ∧ c.toNat ≤ 57 then c.toNat - 48
  else if 97 ≤ c.toNat ∧ c.toNat ≤ 102 then c.toNat - 87
  else if 65 ≤ c.toNat ∧ c.toNat ≤ 70 then c.toNat - 55
  else 0

/-- Value of a list of hexadecimal digit characters, most significant
first. -/
def hexNat (l : List Char) : Nat :=
  l.foldl (fun acc c => 16 * acc + hexDigitVal c) 0

/-- Value of a list of decimal digit characters, most significant first. -/
def decNat (l : List Char) : Nat :=
  l.foldl (fun acc c => 10 * acc + (c.toNat - 48)) 0

/-- Model of the JavaScript `BigInt(string)` constructor on the inputs
that occur here: the empty string is `0`, a `0x`-prefixed string of
hexadecimal digits is parsed in base 16, a string of decimal digits is
parsed in base 10, and every other string throws a `SyntaxError`
(`none`).  Negative and whitespace-padded literals, which cannot reach
the codec, are conservatively mapped to `none` as well. -/
def jsBigInt (s : String) : Option Int :=
  if s = "" then some 0
  else if s.take 2 = "0x" then
    let digits := (s.drop 2).toList
    if digits ≠ [] ∧ digits.all isHexChar then some (Int.ofNat (hexNat digits)) else none
  else
    let digits := s.toList
    if digits ≠ [] ∧ digits.all Char.isDigit then some (Int.ofNat (decNat digits)) else none

/-- Embedding of `NetworkAssetConfiguration`; `decimals` is declared a
small non-negative integer, so it is a `Nat` (a fractional or negative
`decimals` would make `BigInt(assetConfig.decimals)` or
`10n ** decimals` throw before any packing happened). -/
structure NetworkAssetConfiguration : Type where
  priceFeed : String
  decimals : Nat
  borrowCF : ℚ
  liquidateCF : ℚ
  liquidationFactor : ℚ
  supplyCap : ℚ

/-- Embedding of `AssetConfigStruct`: the two packed 256-bit-layout words
(JavaScript bigints, hence `Int`). -/
structure AssetConfigStruct : Type where
  word_a : Int
  word_b : Int
deriving DecidableEq, Repr

/-- Embedding of `packAssetConfig`.  Statements run in source order:
validate the price feed address, scale the three percentages, floor the
supply cap, then build the two words; `BigInt(assetAddress)` and
`BigInt(priceFeedAddress)` are evaluated inside the returned object
literal, after all the validations.  Bigint `<< k` is written `* 2 ^ k`
and bigint `/` is `Int.tdiv` (truncation toward zero). -/
def packAssetConfig (assetAddress : String) (assetConfig : NetworkAssetConfiguration) :
    Except CodecError AssetConfigStruct :=
  let descale : Int := Int.tdiv (10 ^ 18) (10 ^ 4)
  match address assetConfig.priceFeed with
  | Except.error e => Except.error e
  | Except.ok priceFeedAddress =>
    let decimals : Int := (assetConfig.decimals : Int)
    match percentage assetConfig.borrowCF with
    | Except.error e => Except.error e
    | Except.ok borrowCF =>
      match percentage assetConfig.liquidateCF with
      | Except.error e => Except.error e
      | Except.ok liquidateCF =>
        match percentage assetConfig.liquidationFactor with
        | Except.error e => Except.error e
        | Except.ok liquidationFactor =>
          let supplyCap : Int := number assetConfig.supplyCap
          match jsBigInt assetAddress with
          | none => Except.error CodecError.syntaxError
          | some assetAddressValue =>
            match jsBigInt priceFeedAddress with
            | none => Except.error CodecError.syntaxError
            | some priceFeedValue =>
              Except.ok
                { word_a :=
                    Int.lor
                      (Int.lor
                        (Int.lor assetAddressValue
                          (Int.tdiv borrowCF descale * 2 ^ 160))
                        (Int.tdiv liquidateCF descale * 2 ^ 176))
                      (Int.tdiv liquidationFactor descale * 2 ^ 192),
                  word_b :=
                    Int.lor
                      (Int.lor priceFeedValue (decimals * 2 ^ 160))
                      (Int.tdiv supplyCap (10 ^ assetConfig.decimals) * 2 ^ 168) }

/-- Field record recovered by unpacking: addresses as numeric values,
percentages rescaled back to the `10^18` scale, the supply cap rescaled
back to raw token units. -/
structure UnpackedAssetConfig : Type where
  asset : Nat
  borrowCF : Nat
  liquidateCF : Nat
  liquidationFactor : Nat
  priceFeed : Nat
  decimals : Nat
  supplyCap : Nat
deriving DecidableEq, Repr

/-- Modelled from the spec: `unpack(PackedConfig) -> fields` is a design
requirement of the codec contract (spec 4.1) with no implementation under
src/.  Each field is recovered by shifting its word to the documented bit
offset and masking its declared width (`word_a` = address.16.16.16 at
offsets 0/160/176/192, `word_b` = address.8.rest at offsets 0/160/168),
then multiplying percentages by the descale constant `10^14` and the
supply cap by `10^decimals`. -/
def unpackAssetConfig (c : AssetConfigStruct) : UnpackedAssetConfig :=
  let wa := c.word_a.toNat
  let wb := c.word_b.toNat
  let decimals := wb >>> 160 &&& (2 ^ 8 - 1)
  { asset := wa &&& (2 ^ 160 - 1)
    borrowCF := (wa >>> 160 &&& (2 ^ 16 - 1)) * 10 ^ 14
    liquidateCF := (wa >>> 176 &&& (2 ^ 16 - 1)) * 10 ^ 14
    liquidationFactor := (wa >>> 192 &&& (2 ^ 16 - 1)) * 10 ^ 14
    priceFeed := wb &&& (2 ^ 160 - 1)
    decimals := decimals
    supplyCap := (wb >>> 168) * 10 ^ decimals }

/-- Lexicographic comparison of character lists by code point, `true`
when the first argument sorts no later than the second.  This models the
`(a, b) => a.name.localeCompare(b.name)` comparator used to order
migrations (the names in play are plain ASCII, where locale comparison
is code-point comparison). -/
def lexLeb : List Char → List Char → Bool
  | [], _ => true
  | _ :: _, [] => false
  | a :: as, b :: bs =>
    if a.toNat < b.toNat then true
    else if b.toNat < a.toNat then false
    else lexLeb as bs

/-- Embedding of the `Migration` record: its `actions` hold the
`prepare` step (producing an artifact, possibly changing the target) and
the `enact` step (applying an artifact); both can fail. -/
structure MigrationActions (σ α ε : Type) : Type where
  prepare : σ → Except ε (α × σ)
  enact : σ → α → Except ε σ

/-- Embedding of a migration unit: a name and its two actions. -/
structure Migration (σ α ε : Type) : Type where
  name : String
  actions : MigrationActions σ α ε

/-- Name order on migrations, from the `localeCompare` comparator. -/
def migLe {σ α ε : Type} (a b : Migration σ α ε) : Prop :=
  lexLeb a.name.toList b.name.toList = true

instance {σ α ε : Type} : DecidableRel (migLe (σ := σ) (α := α) (ε := ε)) :=
  fun a b => instDecidableEqBool (lexLeb a.name.toList b.name.toList) true

/-- Embedding of `migrationList.sort((a, b) => a.name.localeCompare(b.name))`:
a stable sort by ascending name (JavaScript engines implement `Array.sort`
as a stable sort; with the distinct names required of migrations any
comparison sort yields this same list). -/
def sortMigrations {σ α ε : Type} (l : List (Migration σ α ε)) : List (Migration σ α ε) :=
  List.insertionSort migLe l

/-- Embedding of the recursive generator `subsets(array, offset)`: for
each position it takes the element there, appends it to every subset of
the strictly later positions, and finally yields the empty subset.  The
generator's `subset.push(first)` appends at the tail, so each subset
carries its elements in descending position order; since the generator
for `offset + 1` yields exactly `subsets rest` in order, the whole
enumeration is `(subsets rest).map (· ++ [x]) ++ subsets rest`. -/
def subsets {α : Type} : List α → List (List α)
  | [] => [[]]
  | x :: rest => (subsets rest).map (fun s => s ++ [x]) ++ subsets rest

/-- Embedding of the body of a solution produced by
`MigrationConstraint.solve`, after the sort: for each migration in
order, `await prepare`, then `await enact`, stopping at the first
failure.  Modelled from the spec: the failure reporting layer
(spec 7, `MigrationFailed` is "tagged with the unit name") lives in
the scenario plugin outside src/, so a failure is surfaced here as the
pair of the responsible migration's name and the underlying error,
exactly as it is propagated (no retry, no aggregation). -/
def applyMigrations {σ α ε : Type} : List (Migration σ α ε) → σ → Except (String × ε) σ
  | [], ctx => Except.ok ctx
  | m :: rest, ctx =>
    match m.actions.prepare ctx with
    | Except.error e => Except.error (m.name, e)
    | Except.ok (artifact, ctx1) =>
      match m.actions.enact ctx1 artifact with
      | Except.error e => Except.error (m.name, e)
      | Except.ok ctx2 => applyMigrations rest ctx2

/-- One solution closure of `MigrationConstraint.solve`: sort the
captured subset by name, then apply it sequentially. -/
def runSolution {σ α ε : Type} (migrationList : List (Migration σ α ε)) (ctx : σ) :
    Except (String × ε) σ :=
  applyMigrations (sortMigrations migrationList) ctx

/-- Embedding of `MigrationConstraint.solve`: one solution per subset of
the migration catalog, in the generator's enumeration order. -/
def MigrationConstraint.solve {σ α ε : Type} (catalog : List (Migration σ α ε)) :
    List (σ → Except (String × ε) σ) :=
  (subsets catalog).map (fun migrationList => fun ctx => runSolution migrationList ctx)

/-- Modelled from the spec: the `exp` scale helper of the deployment
code (src/deploy, not under src/), the usual fixed-point conversion of a
quantity to `n * 10 ^ d` raw token units. -/
def exp (n : ℚ) (d : Nat) : Nat :=
  (floor (n * 10 ^ d)).toNat

/-- Observable target state read and written by the guarded actions of
the goerli/usdc deployment script: the admin slot of the USDC proxy and
whether USDC has been initialized, and the token balances the
preconditions query. -/
structure GoerliState : Type where
  usdcProxyAdminSlot : Nat
  usdcInitialized : Bool
  compBalanceOfRewards : Nat
  wethBalanceOfSigner : Nat
  usdcBalanceOfFauceteer : Nat
  wbtcBalanceOfFauceteer : Nat
deriving DecidableEq, Repr

/-- A guarded action: a precondition read from the target and the
effect to run when it still holds (spec 3, `GuardedAction`). -/
structure GuardedAction (σ : Type) : Type where
  pre : σ → Bool
  eff : σ → σ

/-- Modelled from the spec: `DeploymentManager.idempotent` (the
IdempotentExecutor of spec 4.2, implemented in the deployment-manager
plugin outside src/): evaluate the precondition against the current
target state and run the effect only when it returns true. -/
def runIfNeeded {σ : Type} (pre : σ → Bool) (eff : σ → σ) (s : σ) : σ :=
  if pre s then eff s else s

/-- First guarded action of `deployContracts`: if the proxy admin slot
does not hold the freshly deployed ProxyAdmin, change the admin and
initialize USDC (with 6 decimals).  Modelled from the spec for the
effects of `changeAdmin`/`initialize`: the clone contracts are external. -/
def usdcAdminAction (usdcProxyAdminAddress : Nat) : GuardedAction GoerliState :=
  { pre := fun s => !(s.usdcProxyAdminSlot == usdcProxyAdminAddress)
    eff := fun s =>
      { s with usdcProxyAdminSlot := usdcProxyAdminAddress, usdcInitialized := true } }

/-- Second guarded action of `deployContracts`: if CometRewards holds no
COMP, transfer `exp(1_000_000, 18)` COMP to it. -/
def compSeedAction : GuardedAction GoerliState :=
  { pre := fun s => s.compBalanceOfRewards == 0
    eff := fun s =>
      { s with compBalanceOfRewards := s.compBalanceOfRewards + exp 1000000 18 } }

/-- First guarded action of `mintTokens`: if the signer holds less than
`exp(0.01, 18)` WETH, deposit that much. -/
def wethMintAction : GuardedAction GoerliState :=
  { pre := fun s => decide (s.wethBalanceOfSigner < exp (1 / 100) 18)
    eff := fun s =>
      { s with wethBalanceOfSigner := s.wethBalanceOfSigner + exp (1 / 100) 18 } }

/-- Second guarded action of `mintTokens`: if the fauceteer holds no
USDC, mint `exp(100_000_000, decimals)` USDC to it (USDC is initialized
with 6 decimals). -/
def usdcMintAction : GuardedAction GoerliState :=
  { pre := fun s => s.usdcBalanceOfFauceteer == 0
    eff := fun s =>
      { s with usdcBalanceOfFauceteer := s.usdcBalanceOfFauceteer + exp 100000000 6 } }

/-- Third guarded action of `mintTokens`: if the fauceteer holds no
WBTC, mint `exp(20, decimals)` WBTC to it (WBTC has 8 decimals). -/
def wbtcMintAction : GuardedAction GoerliState :=
  { pre := fun s => s.wbtcBalanceOfFauceteer == 0
    eff := fun s =>
      { s with wbtcBalanceOfFauceteer := s.wbtcBalanceOfFauceteer + exp 20 8 } }

/-- The guarded actions authored in the goerli/usdc deployment script,
in program order. -/
def goerliGuardedActions (usdcProxyAdminAddress : Nat) : List (GuardedAction GoerliState) :=
  [usdcAdminAction usdcProxyAdminAddress, compSeedAction, wethMintAction,
    usdcMintAction, wbtcMintAction]

/-- Concrete valid asset configuration used by the witnesses. -/
def demoAssetConfig : NetworkAssetConfiguration :=
  { priceFeed := "0x0123456789abcdef0123456789abcdef01234567"
    decimals := 6
    borrowCF := 4/5
    liquidateCF := 17/20
    liquidationFactor := 93/100
    supplyCap := 1000000000000 }


/-- Demonstration asset address for the witnesses. -/
def demoAssetAddress : String :=
  "0x00112233445566778899aabbccddeeff00112233"

/-- Second demonstration asset address. -/
def demoAssetAddress2 : String :=
  "0xffeeddccbbaa99887766554433221100ffeedd00"

/-- Third demonstration asset address. -/
def demoAssetAddress3 : String :=
  "0xabcdefABCDEF0123456789abcdefABCDEF012345"

/-- Asset configuration whose percentage fields sit exactly on the
boundary values 0.0 and 1.0. -/
def demoBoundaryConfig : NetworkAssetConfiguration :=
  { priceFeed := "0x0123456789abcdef0123456789abcdef01234567"
    decimals := 8
    borrowCF := 0
    liquidateCF := 1
    liquidationFactor := 1
    supplyCap := 500 }

/-- Asset configuration with a malformed price-feed address. -/
def demoBadFeedConfig : NetworkAssetConfiguration :=
  { priceFeed := "0xzz"
    decimals := 6
    borrowCF := 1 / 2
    liquidateCF := 1 / 2
    liquidationFactor := 1 / 2
    supplyCap := 0 }

/-- Demonstration migration that always succeeds. -/
def demoMigA : Migration Nat Unit String :=
  { name := "a"
    actions :=
      { prepare := fun s => Except.ok ((), s)
        enact := fun s _ => Except.ok s } }

/-- Demonstration migration whose `enact` step fails. -/
def demoMigB : Migration Nat Unit String :=
  { name := "b"
    actions :=
      { prepare := fun s => Except.ok ((), s)
        enact := fun _ _ => Except.error "boom" } }

/-- Demonstration migration that always succeeds. -/
def demoMigC : Migration Nat Unit String :=
  { name := "c"
    actions :=
      { prepare := fun s => Except.ok ((), s)
        enact := fun s _ => Except.ok s } }

/-- Demonstration catalog of two distinct migrations. -/
def demoCatalog : List (Migration Nat Unit String) :=
  [demoMigA, demoMigB]

/-- Fresh target state for the guarded-action witnesses. -/
def demoState : GoerliState :=
  { usdcProxyAdminSlot := 0
    usdcInitialized := false
    compBalanceOfRewards := 0
    wethBalanceOfSigner := 0
    usdcBalanceOfFauceteer := 0
    wbtcBalanceOfFauceteer := 0 }

/-- Evaluation of `percentage` on an in-range input: no throw, the result
is the floored `10^18`-scaled value. -/
theorem percentage_ok {n : ℚ} (h0 : 0 ≤ n) (h1 : n ≤ 1) :
    percentage n = Except.ok (floor (n * 10 ^ 18)) := by
  unfold percentage
  rw [if_neg (by push_neg; intro; linarith), if_neg (by push_neg; intro; linarith)]

/-- Evaluation of `percentage` on an out-of-range input: the
`OutOfRange` throw. -/
theorem percentage_err {n : ℚ} (h : 1 < n ∨ n < 0) :
    percentage n = Except.error CodecError.outOfRange := by
  unfold percentage
  rcases h with h | h
  · rw [if_pos ⟨rfl, h⟩]
  · rw [if_neg (by push_neg; intro; linarith), if_pos ⟨rfl, h⟩]

theorem hexDigitVal_lt (c : Char) : hexDigitVal c < 16 := by
  unfold hexDigitVal
  split_ifs <;> omega

theorem hexNat_aux_lt (l : List Char) :
    ∀ acc : ℕ, l.foldl (fun acc c => 16 * acc + hexDigitVal c) acc < (acc + 1) * 16 ^ l.length := by
  induction l with
  | nil => intro acc; simpa using Nat.lt_succ_self acc
  | cons c l ih =>
    intro acc
    have h1 := ih (16 * acc + hexDigitVal c)
    have h2 := hexDigitVal_lt c
    calc (c :: l).foldl (fun acc c => 16 * acc + hexDigitVal c) acc
        = l.foldl (fun acc c => 16 * acc + hexDigitVal c) (16 * acc + hexDigitVal c) := rfl
      _ < (16 * acc + hexDigitVal c + 1) * 16 ^ l.length := h1
      _ ≤ ((acc + 1) * 16) * 16 ^ l.length := by nlinarith
      _ = (acc + 1) * 16 ^ (c :: l).length := by
          rw [List.length_cons, pow_succ]
          ring

/-- A string of hexadecimal digits of length `n` has value below `16^n`. -/
theorem hexNat_lt (l : List Char) : hexNat l < 16 ^ l.length := by
  simpa using hexNat_aux_lt l 0

theorem isAddress_spec {a : String} (h : isAddress a = true) :
    a.length = 42 ∧ a.take 2 = "0x" ∧ (a.drop 2).toList.all isHexChar = true := by
  unfold isAddress at h
  simp only [Bool.and_eq_true, beq_iff_eq] at h
  exact ⟨h.1.1, h.1.2, h.2⟩

/-- A well-formed address string parses under `BigInt` to its 40
hexadecimal digits, a value below `2^160`. -/
theorem jsBigInt_isAddress {a : String} (h : isAddress a = true) :
    jsBigInt a = some (Int.ofNat (hexNat (a.drop 2).toList)) ∧
      hexNat (a.drop 2).toList < 2 ^ 160 := by
  obtain ⟨hlen, htake, hhex⟩ := isAddress_spec h
  have hdlen : (a.drop 2).toList.length = 40 := by
    have : (a.drop 2).data = a.data.drop 2 := String.data_drop a 2
    have hdata : a.data.length = 42 := by rw [String.length_data, hlen]
    simp [String.toList, this, hdata]
  have hne : (a.drop 2).toList ≠ [] := by
    intro hcon
    rw [hcon] at hdlen
    simp at hdlen
  have hnemp : ¬(a = "") := by
    intro hcon
    rw [hcon] at hlen
    simp at hlen
  have hlt : hexNat (a.drop 2).toList < 2 ^ 160 := by
    have := hexNat_lt (a.drop 2).toList
    rw [hdlen] at this
    calc hexNat (a.drop 2).toList < 16 ^ 40 := this
      _ = 2 ^ 160 := by norm_num
  refine ⟨?_, hlt⟩
  unfold jsBigInt
  rw [if_neg hnemp, if_pos htake, if_pos ⟨hne, hhex⟩]

/-- Bitwise or of a value below `2^n` with a value shifted up by `n`
bits is their sum: the fields do not overlap. -/
theorem lor_mul_pow {n : ℕ} (a b : ℕ) (h : a < 2 ^ n) :
    a ||| b * 2 ^ n = a + b * 2 ^ n := by
  have hor := Nat.mul_add_lt_is_or (i := n) h b
  rw [Nat.lor_comm, mul_comm b, ← hor]
  omega

theorem natCast_lor (m k : ℕ) : Int.lor (m : ℤ) (k : ℤ) = ((m ||| k : ℕ) : ℤ) :=
  rfl

theorem floor_toNat_le {q : ℚ} {c : ℕ} (h : q ≤ c) : (floor q).toNat ≤ c := by
  have h1 : floor q ≤ (c : ℤ) := by
    unfold floor
    have := Int.floor_le_floor (α := ℚ) (show q ≤ ((c : ℤ) : ℚ) by exact_mod_cast h)
    simpa using this
  omega

theorem floor_cast_of_nonneg {q : ℚ} (h : 0 ≤ q) :
    floor q = ((floor q).toNat : ℤ) := by
  exact (Int.toNat_of_nonneg (Int.floor_nonneg.mpr h)).symm

set_option maxRecDepth 4000


theorem natCast_lor_mul (a x k : ℕ) :
    Int.lor ((a : ℕ) : ℤ) (((x : ℕ) : ℤ) * 2 ^ k) = ((a ||| x * 2 ^ k : ℕ) : ℤ) := by
  rw [show (((x : ℕ) : ℤ) * 2 ^ k) = ((x * 2 ^ k : ℕ) : ℤ) by push_cast; ring]
  exact natCast_lor _ _

theorem word_a_lor_eq_add (av bF lF pF : ℕ) (hav : av < 2 ^ 160)
    (hb : bF ≤ 10 ^ 4) (hl : lF ≤ 10 ^ 4) (hf : pF ≤ 10 ^ 4) :
    ((av ||| bF * 2 ^ 160) ||| lF * 2 ^ 176) ||| pF * 2 ^ 192
      = av + bF * 2 ^ 160 + lF * 2 ^ 176 + pF * 2 ^ 192 := by
  rw [lor_mul_pow _ _ hav]
  rw [lor_mul_pow _ _ (show av + bF * 2 ^ 160 < 2 ^ 176 by omega)]
  rw [lor_mul_pow _ _ (show av + bF * 2 ^ 160 + lF * 2 ^ 176 < 2 ^ 192 by omega)]

theorem word_b_lor_eq_add (pv dec sC : ℕ) (hpv : pv < 2 ^ 160) (hdec : dec < 2 ^ 8) :
    (pv ||| dec * 2 ^ 160) ||| sC * 2 ^ 168 = pv + dec * 2 ^ 160 + sC * 2 ^ 168 := by
  rw [lor_mul_pow _ _ hpv]
  rw [lor_mul_pow _ _ (show pv + dec * 2 ^ 160 < 2 ^ 168 by omega)]

theorem packAssetConfig_ok (assetAddress : String) (cfg : NetworkAssetConfiguration)
    (av : ℕ) (hav : jsBigInt assetAddress = some (Int.ofNat av)) (havlt : av < 2 ^ 160)
    (hpf : isAddress cfg.priceFeed = true)
    (hb0 : 0 ≤ cfg.borrowCF) (hb1 : cfg.borrowCF ≤ 1)
    (hl0 : 0 ≤ cfg.liquidateCF) (hl1 : cfg.liquidateCF ≤ 1)
    (hf0 : 0 ≤ cfg.liquidationFactor) (hf1 : cfg.liquidationFactor ≤ 1)
    (hs0 : 0 ≤ cfg.supplyCap) (hdec : cfg.decimals < 2 ^ 8) :
    packAssetConfig assetAddress cfg = Except.ok
      { word_a := ((av
          + (floor (cfg.borrowCF * 10 ^ 18)).toNat / 10 ^ 14 * 2 ^ 160
          + (floor (cfg.liquidateCF * 10 ^ 18)).toNat / 10 ^ 14 * 2 ^ 176
          + (floor (cfg.liquidationFactor * 10 ^ 18)).toNat / 10 ^ 14 * 2 ^ 192 : ℕ) : ℤ),
        word_b := ((hexNat (cfg.priceFeed.drop 2).toList
          + cfg.decimals * 2 ^ 160
          + (floor cfg.supplyCap).toNat / 10 ^ cfg.decimals * 2 ^ 168 : ℕ) : ℤ) } := by
  obtain ⟨hpv, hpvlt⟩ := jsBigInt_isAddress hpf
  have hdescale : Int.tdiv (10 ^ 18) (10 ^ 4) = (((10 ^ 14 : ℕ)) : ℤ) := by
    rw [show ((10 : ℤ) ^ 18) = ((10 ^ 18 : ℕ) : ℤ) by norm_num,
      show ((10 : ℤ) ^ 4) = ((10 ^ 4 : ℕ) : ℤ) by norm_num,
      ← Int.ofNat_tdiv]
    norm_num
  obtain ⟨mB, hmB⟩ : ∃ m : ℕ, floor (cfg.borrowCF * 10 ^ 18) = (m : ℤ) :=
    ⟨_, floor_cast_of_nonneg (by positivity)⟩
  obtain ⟨mL, hmL⟩ : ∃ m : ℕ, floor (cfg.liquidateCF * 10 ^ 18) = (m : ℤ) :=
    ⟨_, floor_cast_of_nonneg (by positivity)⟩
  obtain ⟨mF, hmF⟩ : ∃ m : ℕ, floor (cfg.liquidationFactor * 10 ^ 18) = (m : ℤ) :=
    ⟨_, floor_cast_of_nonneg (by positivity)⟩
  obtain ⟨mS, hmS⟩ : ∃ m : ℕ, floor cfg.supplyCap = (m : ℤ) :=
    ⟨_, floor_cast_of_nonneg hs0⟩
  simp only [packAssetConfig, address, hpf, if_true,
    percentage_ok hb0 hb1, percentage_ok hl0 hl1, percentage_ok hf0 hf1,
    hav, hpv, number, hdescale, hmB, hmL, hmF, hmS, Int.toNat_natCast]
  have hBd : mB / 10 ^ 14 ≤ 10 ^ 4 := by
    have : mB ≤ 10 ^ 18 := by
      have h1 : floor (cfg.borrowCF * 10 ^ 18) ≤ ((10 ^ 18 : ℕ) : ℤ) := by
        unfold floor
        have := Int.floor_le_floor (α := ℚ)
          (show cfg.borrowCF * 10 ^ 18 ≤ (((10 ^ 18 : ℕ) : ℤ) : ℚ) by push_cast; nlinarith)
        simpa using this
      rw [hmB] at h1
      exact_mod_cast h1
    calc mB / 10 ^ 14 ≤ 10 ^ 18 / 10 ^ 14 := Nat.div_le_div_right this
      _ = 10 ^ 4 := by norm_num
  have hLd : mL / 10 ^ 14 ≤ 10 ^ 4 := by
    have : mL ≤ 10 ^ 18 := by
      have h1 : floor (cfg.liquidateCF * 10 ^ 18) ≤ ((10 ^ 18 : ℕ) : ℤ) := by
        unfold floor
        have := Int.floor_le_floor (α := ℚ)
          (show cfg.liquidateCF * 10 ^ 18 ≤ (((10 ^ 18 : ℕ) : ℤ) : ℚ) by push_cast; nlinarith)
        simpa using this
      rw [hmL] at h1
      exact_mod_cast h1
    calc mL / 10 ^ 14 ≤ 10 ^ 18 / 10 ^ 14 := Nat.div_le_div_right this
      _ = 10 ^ 4 := by norm_num
  have hFd : mF / 10 ^ 14 ≤ 10 ^ 4 := by
    have : mF ≤ 10 ^ 18 := by
      have h1 : floor (cfg.liquidationFactor * 10 ^ 18) ≤ ((10 ^ 18 : ℕ) : ℤ) := by
        unfold floor
        have := Int.floor_le_floor (α := ℚ)
          (show cfg.liquidationFactor * 10 ^ 18 ≤ (((10 ^ 18 : ℕ) : ℤ) : ℚ) by push_cast; nlinarith)
        simpa using this
      rw [hmF] at h1
      exact_mod_cast h1
    calc mF / 10 ^ 14 ≤ 10 ^ 18 / 10 ^ 14 := Nat.div_le_div_right this
      _ = 10 ^ 4 := by norm_num
  simp only [Except.ok.injEq, AssetConfigStruct.mk.injEq]
  constructor
  · rw [show (((mB : ℕ) : ℤ)).tdiv ((10 ^ 14 : ℕ) : ℤ) = ((mB / 10 ^ 14 : ℕ) : ℤ) from
        (Int.ofNat_tdiv _ _).symm,
      show (((mL : ℕ) : ℤ)).tdiv ((10 ^ 14 : ℕ) : ℤ) = ((mL / 10 ^ 14 : ℕ) : ℤ) from
        (Int.ofNat_tdiv _ _).symm,
      show (((mF : ℕ) : ℤ)).tdiv ((10 ^ 14 : ℕ) : ℤ) = ((mF / 10 ^ 14 : ℕ) : ℤ) from
        (Int.ofNat_tdiv _ _).symm]
    rw [show Int.ofNat av = ((av : ℕ) : ℤ) from rfl]
    rw [natCast_lor_mul, natCast_lor_mul, natCast_lor_mul]
    rw [word_a_lor_eq_add av _ _ _ havlt hBd hLd hFd]
  · rw [show ((10 : ℤ) ^ cfg.decimals) = ((10 ^ cfg.decimals : ℕ) : ℤ) by push_cast; ring]
    rw [show (((mS : ℕ) : ℤ)).tdiv ((10 ^ cfg.decimals : ℕ) : ℤ)
          = ((mS / 10 ^ cfg.decimals : ℕ) : ℤ) from (Int.ofNat_tdiv _ _).symm]
    rw [show Int.ofNat (hexNat (cfg.priceFeed.drop 2).toList)
          = ((hexNat (cfg.priceFeed.drop 2).toList : ℕ) : ℤ) from rfl]
    rw [natCast_lor_mul, natCast_lor_mul]
    rw [word_b_lor_eq_add _ _ _ hpvlt hdec]

theorem descaled_le {q : ℚ} (h0 : 0 ≤ q) (h1 : q ≤ 1) :
    (floor (q * 10 ^ 18)).toNat / 10 ^ 14 ≤ 10 ^ 4 := by
  have hle : (floor (q * 10 ^ 18)).toNat ≤ 10 ^ 18 := by
    apply floor_toNat_le
    push_cast
    nlinarith
  calc (floor (q * 10 ^ 18)).toNat / 10 ^ 14 ≤ 10 ^ 18 / 10 ^ 14 :=
        Nat.div_le_div_right hle
    _ = 10 ^ 4 := by norm_num

/-- Precision loss of the percentage round trip: rescaling the descaled
field loses strictly less than `10^14` at the `10^18` scale. -/
theorem descale_err_bound {q : ℚ} (h0 : 0 ≤ q) :
    0 ≤ q * 10 ^ 18 - (((floor (q * 10 ^ 18)).toNat / 10 ^ 14 * 10 ^ 14 : ℕ) : ℚ) ∧
      q * 10 ^ 18 - (((floor (q * 10 ^ 18)).toNat / 10 ^ 14 * 10 ^ 14 : ℕ) : ℚ) < 10 ^ 14 := by
  have hq : (0 : ℚ) ≤ q * 10 ^ 18 := by positivity
  have hcast := floor_cast_of_nonneg hq
  set m := (floor (q * 10 ^ 18)).toNat with hm
  set u := m / 10 ^ 14 * 10 ^ 14 with hu
  have hfl : ((m : ℤ) : ℚ) ≤ q * 10 ^ 18 := by
    rw [← hcast]; exact Int.floor_le _
  have hfl2 : q * 10 ^ 18 < ((m : ℤ) : ℚ) + 1 := by
    rw [← hcast]; exact Int.lt_floor_add_one _
  have hn1 : u ≤ m := by omega
  have hn2 : m + 1 ≤ u + 10 ^ 14 := by omega
  have hc1 : (u : ℚ) ≤ (m : ℚ) := by exact_mod_cast hn1
  have hc2 : (m : ℚ) + 1 ≤ (u : ℚ) + 10 ^ 14 := by exact_mod_cast hn2
  have hz : ((m : ℤ) : ℚ) = (m : ℚ) := by push_cast; ring
  rw [hz] at hfl hfl2
  constructor <;> linarith

/-- Precision loss of the supply-cap round trip: strictly less than one
whole token unit (`10^decimals` raw units). -/
theorem cap_err_bound {q : ℚ} (h0 : 0 ≤ q) (d : ℕ) :
    0 ≤ q - (((floor q).toNat / 10 ^ d * 10 ^ d : ℕ) : ℚ) ∧
      q - (((floor q).toNat / 10 ^ d * 10 ^ d : ℕ) : ℚ) < (10 : ℚ) ^ d := by
  have hcast := floor_cast_of_nonneg h0
  set m := (floor q).toNat with hm
  set u := m / 10 ^ d * 10 ^ d with hu
  have hfl : ((m : ℤ) : ℚ) ≤ q := by
    rw [← hcast]; exact Int.floor_le _
  have hfl2 : q < ((m : ℤ) : ℚ) + 1 := by
    rw [← hcast]; exact Int.lt_floor_add_one _
  have hdpos : 0 < 10 ^ d := Nat.pos_pow_of_pos d (by norm_num)
  have hn1 : u ≤ m := Nat.div_mul_le_self _ _
  have hn2 : m + 1 ≤ u + 10 ^ d := by
    have hlt : m < u + 10 ^ d := by
      calc m = 10 ^ d * (m / 10 ^ d) + m % 10 ^ d := (Nat.div_add_mod _ _).symm
        _ < 10 ^ d * (m / 10 ^ d) + 10 ^ d := Nat.add_lt_add_left (Nat.mod_lt _ hdpos) _
        _ = m / 10 ^ d * 10 ^ d + 10 ^ d := by ring
    exact hlt
  have hc1 : (u : ℚ) ≤ (m : ℚ) := by exact_mod_cast hn1
  have hc2 : (m : ℚ) + 1 ≤ (u : ℚ) + (10 : ℚ) ^ d := by exact_mod_cast hn2
  have hz : ((m : ℤ) : ℚ) = (m : ℚ) := by push_cast; ring
  rw [hz] at hfl hfl2
  constructor <;> linarith

/-- C3: the packing layout.  For a valid input record, `word_a` is the
asset address in the low 160 bits plus the descaled (divided by `10^14`)
borrow, liquidate and liquidation-penalty factors at bit offsets 160, 176
and 192, and `word_b` is the price-feed address in the low 160 bits plus
the decimals value at offset 160 and the supply cap divided by
`10^decimals` at offset 168. -/
theorem pack_places_fields (assetAddress : String) (cfg : NetworkAssetConfiguration)
    (ha : isAddress assetAddress = true)
    (hpf : isAddress cfg.priceFeed = true)
    (hb0 : 0 ≤ cfg.borrowCF) (hb1 : cfg.borrowCF ≤ 1)
    (hl0 : 0 ≤ cfg.liquidateCF) (hl1 : cfg.liquidateCF ≤ 1)
    (hf0 : 0 ≤ cfg.liquidationFactor) (hf1 : cfg.liquidationFactor ≤ 1)
    (hs0 : 0 ≤ cfg.supplyCap) (hdec : cfg.decimals < 2 ^ 8) :
    packAssetConfig assetAddress cfg = Except.ok
      { word_a := ((hexNat (assetAddress.drop 2).toList
          + (floor (cfg.borrowCF * 10 ^ 18)).toNat / 10 ^ 14 * 2 ^ 160
          + (floor (cfg.liquidateCF * 10 ^ 18)).toNat / 10 ^ 14 * 2 ^ 176
          + (floor (cfg.liquidationFactor * 10 ^ 18)).toNat / 10 ^ 14 * 2 ^ 192 : ℕ) : ℤ),
        word_b := ((hexNat (cfg.priceFeed.drop 2).toList
          + cfg.decimals * 2 ^ 160
          + (floor cfg.supplyCap).toNat / 10 ^ cfg.decimals * 2 ^ 168 : ℕ) : ℤ) } := by
  obtain ⟨hav, havlt⟩ := jsBigInt_isAddress ha
  exact packAssetConfig_ok assetAddress cfg _ hav havlt hpf hb0 hb1 hl0 hl1 hf0 hf1 hs0 hdec

/-- C10: with all three percentage fields in `[0, 1]`, each descaled
factor is at most `10^4 < 2^16`, so the four fields of `word_a` occupy
disjoint bit ranges and each is recoverable by shifting to its offset and
masking its 16-bit window (the address by masking its 160-bit window). -/
theorem word_a_fields_recoverable (assetAddress : String) (cfg : NetworkAssetConfiguration)
    (ha : isAddress assetAddress = true)
    (hpf : isAddress cfg.priceFeed = true)
    (hb0 : 0 ≤ cfg.borrowCF) (hb1 : cfg.borrowCF ≤ 1)
    (hl0 : 0 ≤ cfg.liquidateCF) (hl1 : cfg.liquidateCF ≤ 1)
    (hf0 : 0 ≤ cfg.liquidationFactor) (hf1 : cfg.liquidationFactor ≤ 1)
    (hs0 : 0 ≤ cfg.supplyCap) (hdec : cfg.decimals < 2 ^ 8) :
    ∃ out, packAssetConfig assetAddress cfg = Except.ok out ∧
      (floor (cfg.borrowCF * 10 ^ 18)).toNat / 10 ^ 14 ≤ 10 ^ 4 ∧
      (floor (cfg.liquidateCF * 10 ^ 18)).toNat / 10 ^ 14 ≤ 10 ^ 4 ∧
      (floor (cfg.liquidationFactor * 10 ^ 18)).toNat / 10 ^ 14 ≤ 10 ^ 4 ∧
      (10 ^ 4 < 2 ^ 16) ∧
      out.word_a.toNat &&& (2 ^ 160 - 1) = hexNat (assetAddress.drop 2).toList ∧
      out.word_a.toNat >>> 160 &&& (2 ^ 16 - 1) =
        (floor (cfg.borrowCF * 10 ^ 18)).toNat / 10 ^ 14 ∧
      out.word_a.toNat >>> 176 &&& (2 ^ 16 - 1) =
        (floor (cfg.liquidateCF * 10 ^ 18)).toNat / 10 ^ 14 ∧
      out.word_a.toNat >>> 192 &&& (2 ^ 16 - 1) =
        (floor (cfg.liquidationFactor * 10 ^ 18)).toNat / 10 ^ 14 := by
  obtain ⟨hav, havlt⟩ := jsBigInt_isAddress ha
  refine ⟨_, packAssetConfig_ok assetAddress cfg _ hav havlt hpf hb0 hb1 hl0 hl1 hf0 hf1 hs0 hdec,
    descaled_le hb0 hb1, descaled_le hl0 hl1, descaled_le hf0 hf1, by norm_num, ?_, ?_, ?_, ?_⟩ <;>
  · simp only [Int.toNat_natCast, Nat.shiftRight_eq_div_pow, Nat.and_pow_two_sub_one_eq_mod]
    have h1 := descaled_le hb0 hb1
    have h2 := descaled_le hl0 hl1
    have h3 := descaled_le hf0 hf1
    omega

/-- C1: the pack/unpack round trip.  For a valid field record, unpacking
the packed configuration reproduces the two addresses and the decimals
exactly, each percentage field within `10^14` at the `10^18` scale, and
the supply cap within one whole token unit (`10^decimals` raw units). -/
theorem pack_unpack_roundTrip (assetAddress : String) (cfg : NetworkAssetConfiguration)
    (ha : isAddress assetAddress = true)
    (hpf : isAddress cfg.priceFeed = true)
    (hb0 : 0 ≤ cfg.borrowCF) (hb1 : cfg.borrowCF ≤ 1)
    (hl0 : 0 ≤ cfg.liquidateCF) (hl1 : cfg.liquidateCF ≤ 1)
    (hf0 : 0 ≤ cfg.liquidationFactor) (hf1 : cfg.liquidationFactor ≤ 1)
    (hs0 : 0 ≤ cfg.supplyCap) (hdec : cfg.decimals < 2 ^ 8) :
    ∃ out, packAssetConfig assetAddress cfg = Except.ok out ∧
      (unpackAssetConfig out).asset = hexNat (assetAddress.drop 2).toList ∧
      (unpackAssetConfig out).priceFeed = hexNat (cfg.priceFeed.drop 2).toList ∧
      (unpackAssetConfig out).decimals = cfg.decimals ∧
      (0 ≤ cfg.borrowCF * 10 ^ 18 - ((unpackAssetConfig out).borrowCF : ℚ) ∧
        cfg.borrowCF * 10 ^ 18 - ((unpackAssetConfig out).borrowCF : ℚ) < 10 ^ 14) ∧
      (0 ≤ cfg.liquidateCF * 10 ^ 18 - ((unpackAssetConfig out).liquidateCF : ℚ) ∧
        cfg.liquidateCF * 10 ^ 18 - ((unpackAssetConfig out).liquidateCF : ℚ) < 10 ^ 14) ∧
      (0 ≤ cfg.liquidationFactor * 10 ^ 18 - ((unpackAssetConfig out).liquidationFactor : ℚ) ∧
        cfg.liquidationFactor * 10 ^ 18 - ((unpackAssetConfig out).liquidationFactor : ℚ) < 10 ^ 14) ∧
      (0 ≤ cfg.supplyCap - ((unpackAssetConfig out).supplyCap : ℚ) ∧
        cfg.supplyCap - ((unpackAssetConfig out).supplyCap : ℚ) < (10 : ℚ) ^ cfg.decimals) := by
  obtain ⟨hav, havlt⟩ := jsBigInt_isAddress ha
  obtain ⟨hpv, hpvlt⟩ := jsBigInt_isAddress hpf
  refine ⟨_, packAssetConfig_ok assetAddress cfg _ hav havlt hpf hb0 hb1 hl0 hl1 hf0 hf1 hs0 hdec,
    ?_⟩
  have hBd := descaled_le hb0 hb1
  have hLd := descaled_le hl0 hl1
  have hFd := descaled_le hf0 hf1
  simp only [unpackAssetConfig, Int.toNat_natCast, Nat.shiftRight_eq_div_pow,
    Nat.and_pow_two_sub_one_eq_mod]
  refine ⟨by omega, by omega, by omega, ?_, ?_, ?_, ?_⟩
  · have hrw : (hexNat (assetAddress.drop 2).toList
        + (floor (cfg.borrowCF * 10 ^ 18)).toNat / 10 ^ 14 * 2 ^ 160
        + (floor (cfg.liquidateCF * 10 ^ 18)).toNat / 10 ^ 14 * 2 ^ 176
        + (floor (cfg.liquidationFactor * 10 ^ 18)).toNat / 10 ^ 14 * 2 ^ 192)
          / 2 ^ 160 % 2 ^ 16 * 10 ^ 14
        = (floor (cfg.borrowCF * 10 ^ 18)).toNat / 10 ^ 14 * 10 ^ 14 := by omega
    rw [hrw]
    exact descale_err_bound hb0
  · have hrw : (hexNat (assetAddress.drop 2).toList
        + (floor (cfg.borrowCF * 10 ^ 18)).toNat / 10 ^ 14 * 2 ^ 160
        + (floor (cfg.liquidateCF * 10 ^ 18)).toNat / 10 ^ 14 * 2 ^ 176
        + (floor (cfg.liquidationFactor * 10 ^ 18)).toNat / 10 ^ 14 * 2 ^ 192)
          / 2 ^ 176 % 2 ^ 16 * 10 ^ 14
        = (floor (cfg.liquidateCF * 10 ^ 18)).toNat / 10 ^ 14 * 10 ^ 14 := by omega
    rw [hrw]
    exact descale_err_bound hl0
  · have hrw : (hexNat (assetAddress.drop 2).toList
        + (floor (cfg.borrowCF * 10 ^ 18)).toNat / 10 ^ 14 * 2 ^ 160
        + (floor (cfg.liquidateCF * 10 ^ 18)).toNat / 10 ^ 14 * 2 ^ 176
        + (floor (cfg.liquidationFactor * 10 ^ 18)).toNat / 10 ^ 14 * 2 ^ 192)
          / 2 ^ 192 % 2 ^ 16 * 10 ^ 14
        = (floor (cfg.liquidationFactor * 10 ^ 18)).toNat / 10 ^ 14 * 10 ^ 14 := by omega
    rw [hrw]
    exact descale_err_bound hf0
  · have hdeq : (hexNat (cfg.priceFeed.drop 2).toList + cfg.decimals * 2 ^ 160
        + (floor cfg.supplyCap).toNat / 10 ^ cfg.decimals * 2 ^ 168) / 2 ^ 160 % 2 ^ 8
        = cfg.decimals := by omega
    have hrw : (hexNat (cfg.priceFeed.drop 2).toList + cfg.decimals * 2 ^ 160
        + (floor cfg.supplyCap).toNat / 10 ^ cfg.decimals * 2 ^ 168) / 2 ^ 168
        = (floor cfg.supplyCap).toNat / 10 ^ cfg.decimals := by omega
    rw [hdeq, hrw]
    exact cap_err_bound hs0 cfg.decimals

theorem pack_succeeds (a : String) (cfg : NetworkAssetConfiguration) (v : Int)
    (hav : jsBigInt a = some v) (hpf : isAddress cfg.priceFeed = true)
    (hb0 : 0 ≤ cfg.borrowCF) (hb1 : cfg.borrowCF ≤ 1)
    (hl0 : 0 ≤ cfg.liquidateCF) (hl1 : cfg.liquidateCF ≤ 1)
    (hf0 : 0 ≤ cfg.liquidationFactor) (hf1 : cfg.liquidationFactor ≤ 1) :
    ∃ out, packAssetConfig a cfg = Except.ok out := by
  obtain ⟨hpv, _⟩ := jsBigInt_isAddress hpf
  suffices h : ∀ e, packAssetConfig a cfg ≠ Except.error e by
    cases hres : packAssetConfig a cfg with
    | ok out => exact ⟨out, rfl⟩
    | error e => exact absurd hres (h e)
  intro e he
  simp only [packAssetConfig, address, hpf, if_true,
    percentage_ok hb0 hb1, percentage_ok hl0 hl1, percentage_ok hf0 hf1, hav, hpv] at he
  exact Except.noConfusion he

theorem pack_err_oor_borrow (a : String) (cfg : NetworkAssetConfiguration)
    (hpf : isAddress cfg.priceFeed = true)
    (hb : 1 < cfg.borrowCF ∨ cfg.borrowCF < 0) :
    packAssetConfig a cfg = Except.error CodecError.outOfRange := by
  simp only [packAssetConfig, address, hpf, if_true, percentage_err hb]

theorem pack_err_oor_liquidate (a : String) (cfg : NetworkAssetConfiguration)
    (hpf : isAddress cfg.priceFeed = true)
    (hb0 : 0 ≤ cfg.borrowCF) (hb1 : cfg.borrowCF ≤ 1)
    (hl : 1 < cfg.liquidateCF ∨ cfg.liquidateCF < 0) :
    packAssetConfig a cfg = Except.error CodecError.outOfRange := by
  simp only [packAssetConfig, address, hpf, if_true, percentage_ok hb0 hb1, percentage_err hl]

theorem pack_err_oor_liqFactor (a : String) (cfg : NetworkAssetConfiguration)
    (hpf : isAddress cfg.priceFeed = true)
    (hb0 : 0 ≤ cfg.borrowCF) (hb1 : cfg.borrowCF ≤ 1)
    (hl0 : 0 ≤ cfg.liquidateCF) (hl1 : cfg.liquidateCF ≤ 1)
    (hf : 1 < cfg.liquidationFactor ∨ cfg.liquidationFactor < 0) :
    packAssetConfig a cfg = Except.error CodecError.outOfRange := by
  simp only [packAssetConfig, address, hpf, if_true, percentage_ok hb0 hb1,
    percentage_ok hl0 hl1, percentage_err hf]

/-- C6: with a well-formed price feed and a parsable asset address,
`packAssetConfig` fails with `OutOfRange` exactly when one of the three
percentage fields is greater than `1.0` or less than `0.0`; in
particular it does not fail on fields equal to `0.0` or `1.0`. -/
theorem pack_outOfRange_iff (a : String) (cfg : NetworkAssetConfiguration)
    (ha : isAddress a = true) (hpf : isAddress cfg.priceFeed = true) :
    (packAssetConfig a cfg = Except.error CodecError.outOfRange ↔
      (1 < cfg.borrowCF ∨ cfg.borrowCF < 0 ∨ 1 < cfg.liquidateCF ∨ cfg.liquidateCF < 0 ∨
        1 < cfg.liquidationFactor ∨ cfg.liquidationFactor < 0)) ∧
    ((0 ≤ cfg.borrowCF ∧ cfg.borrowCF ≤ 1) → (0 ≤ cfg.liquidateCF ∧ cfg.liquidateCF ≤ 1) →
      (0 ≤ cfg.liquidationFactor ∧ cfg.liquidationFactor ≤ 1) →
      ∃ out, packAssetConfig a cfg = Except.ok out) := by
  obtain ⟨hav, _⟩ := jsBigInt_isAddress ha
  constructor
  · constructor
    · intro herr
      by_contra hn
      push_neg at hn
      obtain ⟨h1, h2, h3, h4, h5, h6⟩ := hn
      obtain ⟨out, hout⟩ := pack_succeeds a cfg _ hav hpf h2 h1 h4 h3 h6 h5
      rw [hout] at herr
      exact Except.noConfusion herr
    · intro h
      by_cases hb : 1 < cfg.borrowCF ∨ cfg.borrowCF < 0
      · exact pack_err_oor_borrow a cfg hpf hb
      · push_neg at hb
        by_cases hl : 1 < cfg.liquidateCF ∨ cfg.liquidateCF < 0
        · exact pack_err_oor_liquidate a cfg hpf hb.2 hb.1 hl
        · push_neg at hl
          by_cases hf : 1 < cfg.liquidationFactor ∨ cfg.liquidationFactor < 0
          · exact pack_err_oor_liqFactor a cfg hpf hb.2 hb.1 hl.2 hl.1 hf
          · push_neg at hf
            rcases h with h | h | h | h | h | h
            · exact absurd h (not_lt.mpr hb.1)
            · exact absurd h (not_lt.mpr hb.2)
            · exact absurd h (not_lt.mpr hl.1)
            · exact absurd h (not_lt.mpr hl.2)
            · exact absurd h (not_lt.mpr hf.1)
            · exact absurd h (not_lt.mpr hf.2)
  · intro hb hl hf
    exact pack_succeeds a cfg _ hav hpf hb.1 hb.2 hl.1 hl.2 hf.1 hf.2

/-- C7: on an in-range percentage the encoded integer is the exact
mathematical floor of the input scaled by `10^18`. -/
theorem percentage_exact_floor (p : ℚ) (h0 : 0 ≤ p) (h1 : p ≤ 1) :
    percentage p = Except.ok ⌊p * 10 ^ 18⌋ := by
  rw [percentage_ok h0 h1]
  rfl

/-- C9 counterexample: `"0x123"` is not a well-formed address, yet
`packAssetConfig` accepts it as the asset address (only the price feed
goes through the `address` validator; the asset address is merely handed
to `BigInt`, which parses any hex literal). -/
theorem pack_malformed_asset_accepted :
    isAddress "0x123" = false ∧
      ∃ out, packAssetConfig "0x123" demoAssetConfig = Except.ok out := by
  refine ⟨by decide, ?_⟩
  refine pack_succeeds "0x123" demoAssetConfig (Int.ofNat 291) (by decide) (by decide) ?_ ?_ ?_ ?_ ?_ ?_
  all_goals norm_num [demoAssetConfig]

/-- C9 amended: a malformed price-feed address always fails with
`InvalidAddress` (it is the first validation performed), whatever the
rest of the record contains. -/
theorem pack_invalidAddress (a : String) (cfg : NetworkAssetConfiguration)
    (hpf : isAddress cfg.priceFeed = false) :
    packAssetConfig a cfg = Except.error CodecError.invalidAddress := by
  simp only [packAssetConfig, address, hpf, Bool.false_eq_true, if_false]

theorem char_eq_of_toNat_eq {a b : Char} (h : a.toNat = b.toNat) : a = b :=
  Char.eq_of_val_eq (UInt32.toNat.inj h)

theorem lexLeb_head {a b : Char} {as bs : List Char}
    (h : lexLeb (a :: as) (b :: bs) = true) :
    a.toNat < b.toNat ∨ (a = b ∧ lexLeb as bs = true) := by
  simp only [lexLeb] at h
  split_ifs at h with h1 h2
  · exact Or.inl h1
  · exact Or.inr ⟨char_eq_of_toNat_eq (by omega), h⟩

theorem lexLeb_of_head_lt {a b : Char} (as bs : List Char) (h : a.toNat < b.toNat) :
    lexLeb (a :: as) (b :: bs) = true := by
  simp [lexLeb, h]

theorem lexLeb_cons_same {a : Char} {as bs : List Char} (h : lexLeb as bs = true) :
    lexLeb (a :: as) (a :: bs) = true := by
  have hn : ¬a.toNat < a.toNat := lt_irrefl _
  simp [lexLeb, hn, h]

theorem lexLeb_total : ∀ x y : List Char, lexLeb x y = true ∨ lexLeb y x = true := by
  intro x
  induction x with
  | nil => intro y; left; rfl
  | cons a as ih =>
    intro y
    cases y with
    | nil => right; rfl
    | cons b bs =>
      by_cases hab : a.toNat < b.toNat
      · exact Or.inl (lexLeb_of_head_lt _ _ hab)
      · by_cases hba : b.toNat < a.toNat
        · exact Or.inr (lexLeb_of_head_lt _ _ hba)
        · have hb : a = b := char_eq_of_toNat_eq (by omega)
          subst hb
          rcases ih bs with h | h
          · exact Or.inl (lexLeb_cons_same h)
          · exact Or.inr (lexLeb_cons_same h)

theorem lexLeb_trans : ∀ x y z : List Char,
    lexLeb x y = true → lexLeb y z = true → lexLeb x z = true := by
  intro x
  induction x with
  | nil => intro y z _ _; rfl
  | cons a as ih =>
    intro y z hxy hyz
    cases y with
    | nil => exact absurd hxy (by simp [lexLeb])
    | cons b bs =>
      cases z with
      | nil => exact absurd hyz (by simp [lexLeb])
      | cons c cs =>
        rcases lexLeb_head hxy with h1 | ⟨hab, h1⟩
        · rcases lexLeb_head hyz with h2 | ⟨hbc, h2⟩
          · exact lexLeb_of_head_lt _ _ (by omega)
          · subst hbc
            exact lexLeb_of_head_lt _ _ h1
        · subst hab
          rcases lexLeb_head hyz with h2 | ⟨hbc, h2⟩
          · exact lexLeb_of_head_lt _ _ h2
          · subst hbc
            exact lexLeb_cons_same (ih bs cs h1 h2)

theorem lexLeb_antisymm : ∀ x y : List Char,
    lexLeb x y = true → lexLeb y x = true → x = y := by
  intro x
  induction x with
  | nil =>
    intro y _ hyx
    cases y with
    | nil => rfl
    | cons b bs => exact absurd hyx (by simp [lexLeb])
  | cons a as ih =>
    intro y hxy hyx
    cases y with
    | nil => exact absurd hxy (by simp [lexLeb])
    | cons b bs =>
      rcases lexLeb_head hxy with h1 | ⟨hab, h1⟩
      · rcases lexLeb_head hyx with h2 | ⟨hba, h2⟩
        · omega
        · rw [hba] at h1
          omega
      · subst hab
        rcases lexLeb_head hyx with h2 | ⟨hba, h2⟩
        · omega
        · rw [ih bs h1 h2]

theorem subsets_length {α : Type} (l : List α) : (subsets l).length = 2 ^ l.length := by
  induction l with
  | nil => rfl
  | cons x rest ih =>
    simp only [subsets, List.length_append, List.length_map, ih, List.length_cons]
    ring

theorem nil_mem_subsets {α : Type} (l : List α) : [] ∈ subsets l := by
  induction l with
  | nil => exact List.mem_singleton.mpr rfl
  | cons x rest ih =>
    exact List.mem_append_right _ ih

theorem mem_subsets_subset {α : Type} {l t : List α} (h : t ∈ subsets l) : ∀ x ∈ t, x ∈ l := by
  induction l generalizing t with
  | nil =>
    rw [List.mem_singleton.mp h]
    intro x hx
    exact absurd hx (List.not_mem_nil x)
  | cons y rest ih =>
    simp only [subsets, List.mem_append, List.mem_map] at h
    rcases h with ⟨t', ht', rfl⟩ | h
    · intro x hx
      rcases List.mem_append.mp hx with hx | hx
      · exact List.mem_cons_of_mem _ (ih ht' x hx)
      · rw [List.mem_singleton.mp hx]
        exact List.mem_cons_self _ _
    · intro x hx
      exact List.mem_cons_of_mem _ (ih h x hx)

theorem subsets_map {α β : Type} (f : α → β) (l : List α) :
    subsets (l.map f) = (subsets l).map (List.map f) := by
  induction l with
  | nil => rfl
  | cons x rest ih =>
    simp only [List.map_cons, subsets, ih, List.map_append, List.map_map]
    congr 1
    apply List.map_congr_left
    intro t _
    simp [Function.comp, List.map_append]

theorem subsets_toFinset_nodup {α : Type} [DecidableEq α] {l : List α} (h : l.Nodup) :
    ((subsets l).map List.toFinset).Nodup := by
  induction l with
  | nil => exact List.nodup_singleton _
  | cons x rest ih =>
    obtain ⟨hx, hrest⟩ := List.nodup_cons.mp h
    have hx' : ∀ t ∈ subsets rest, x ∉ t.toFinset := by
      intro t ht hmem
      exact hx (mem_subsets_subset ht x (List.mem_toFinset.mp hmem))
    simp only [subsets, List.map_append, List.map_map]
    have hrw : (subsets rest).map (List.toFinset ∘ fun s => s ++ [x])
        = ((subsets rest).map List.toFinset).map (insert x) := by
      rw [List.map_map]
      apply List.map_congr_left
      intro t _
      simp only [Function.comp_apply, List.toFinset_append]
      simp [Finset.union_comm, Finset.insert_eq]
    rw [hrw]
    apply List.Nodup.append
    · apply List.Nodup.map_on _ (ih hrest)
      intro s hs t ht hst
      simp only [List.mem_map] at hs ht
      obtain ⟨s', hs', rfl⟩ := hs
      obtain ⟨t', ht', rfl⟩ := ht
      have hxs : x ∉ s'.toFinset := hx' s' hs'
      have hxt : x ∉ t'.toFinset := hx' t' ht'
      calc s'.toFinset = (insert x s'.toFinset).erase x := (Finset.erase_insert hxs).symm
        _ = (insert x t'.toFinset).erase x := by rw [hst]
        _ = t'.toFinset := Finset.erase_insert hxt
    · exact ih hrest
    · intro f hf hg
      simp only [List.mem_map] at hf hg
      obtain ⟨s', hs', rfl⟩ := hf
      obtain ⟨t', ht', heq⟩ := hg
      apply hx' t' ht'
      rw [heq]
      exact Finset.mem_insert_self x s' 

theorem mem_subsets_toFinset_iff {α : Type} [DecidableEq α] (l : List α) (s : Finset α) :
    s ∈ (subsets l).map List.toFinset ↔ s ⊆ l.toFinset := by
  induction l generalizing s with
  | nil =>
    simp only [subsets, List.map_cons, List.map_nil, List.toFinset_nil, List.mem_singleton]
    constructor
    · rintro rfl
      exact Finset.Subset.refl _
    · intro h
      exact Finset.subset_empty.mp h
  | cons x rest ih =>
    simp only [subsets, List.map_append, List.mem_append, List.map_map, List.mem_map,
      Function.comp_apply, List.toFinset_cons]
    constructor
    · rintro (⟨t, ht, rfl⟩ | h)
      · intro a ha
        rw [List.toFinset_append] at ha
        rcases Finset.mem_union.mp ha with ha | ha
        · exact Finset.mem_insert_of_mem ((ih t.toFinset).mp (List.mem_map_of_mem _ ht) ha)
        · simp only [List.toFinset_cons, List.toFinset_nil] at ha
          rw [Finset.mem_insert] at ha
          rcases ha with rfl | ha
          · exact Finset.mem_insert_self _ _
          · exact absurd ha (Finset.not_mem_empty a)
      · rcases h with ⟨t, ht, rfl⟩
        exact ((ih t.toFinset).mp (List.mem_map_of_mem _ ht)).trans (Finset.subset_insert _ _)
    · intro hsub
      by_cases hx : x ∈ s
      · left
        have herase : s.erase x ⊆ rest.toFinset := by
          intro a ha
          have has := Finset.mem_of_mem_erase ha
          have hne : a ≠ x := Finset.ne_of_mem_erase ha
          rcases Finset.mem_insert.mp (hsub has) with rfl | h
          · exact absurd rfl hne
          · exact h
        obtain ⟨t, ht, hteq⟩ := List.mem_map.mp ((ih (s.erase x)).mpr herase)
        refine ⟨t, ht, ?_⟩
        rw [List.toFinset_append, hteq]
        have hx1 : ([x] : List α).toFinset = {x} := by simp
        rw [hx1, Finset.union_comm, ← Finset.insert_eq]
        exact Finset.insert_erase hx
      · right
        have hsub' : s ⊆ rest.toFinset := by
          intro a ha
          rcases Finset.mem_insert.mp (hsub ha) with rfl | h
          · exact absurd ha hx
          · exact h
        have hmem := (ih s).mpr hsub'
        rcases List.mem_map.mp hmem with ⟨t, ht, hteq⟩
        exact ⟨t, ht, hteq⟩

/-- C2: `solve` produces one scenario per subset: `2^N` of them for a
catalog of `N` units with distinct names, the empty subset among them,
no two scenarios with the same member set, every subset of the catalog
(identified by its name set) appearing, and each appearing exactly
once. -/
theorem solve_enumerates_powerset {σ α ε : Type} (catalog : List (Migration σ α ε))
    (h : (catalog.map Migration.name).Nodup) :
    (MigrationConstraint.solve catalog).length = 2 ^ catalog.length ∧
    [] ∈ subsets catalog ∧
    ((subsets catalog).map (fun sc => (sc.map Migration.name).toFinset)).Nodup ∧
    ∀ s : Finset String,
      (s ∈ (subsets catalog).map (fun sc => (sc.map Migration.name).toFinset) ↔
        s ⊆ (catalog.map Migration.name).toFinset) ∧
      (s ⊆ (catalog.map Migration.name).toFinset →
        ((subsets catalog).map (fun sc => (sc.map Migration.name).toFinset)).count s = 1) := by
  have hrw : (subsets catalog).map (fun sc => (sc.map Migration.name).toFinset)
      = (subsets (catalog.map Migration.name)).map List.toFinset := by
    rw [subsets_map, List.map_map]
    rfl
  have hlen : (MigrationConstraint.solve catalog).length = 2 ^ catalog.length := by
    unfold MigrationConstraint.solve
    rw [List.length_map, subsets_length]
  refine ⟨hlen, nil_mem_subsets catalog, ?_, ?_⟩
  · rw [hrw]
    exact subsets_toFinset_nodup h
  · intro s
    constructor
    · rw [hrw]
      exact mem_subsets_toFinset_iff (catalog.map Migration.name) s
    · intro hsub
      rw [hrw]
      exact List.count_eq_one_of_mem (subsets_toFinset_nodup h)
        ((mem_subsets_toFinset_iff (catalog.map Migration.name) s).mpr hsub)

theorem str_ext {s t : String} (h : s.toList = t.toList) : s = t := by
  cases s
  cases t
  exact congrArg String.mk (by simpa [String.toList] using h)

theorem sortMigrations_perm {σ α ε : Type} (l : List (Migration σ α ε)) :
    (sortMigrations l).Perm l :=
  List.perm_insertionSort _ l

theorem sortMigrations_sorted {σ α ε : Type} (l : List (Migration σ α ε)) :
    (sortMigrations l).Sorted migLe := by
  haveI : IsTotal (Migration σ α ε) migLe :=
    ⟨fun a b => lexLeb_total a.name.toList b.name.toList⟩
  haveI : IsTrans (Migration σ α ε) migLe :=
    ⟨fun _ _ _ hab hbc => lexLeb_trans _ _ _ hab hbc⟩
  exact List.sorted_insertionSort _ l

theorem pairwise_ne_of_perm {σ α ε : Type} {l₁ l₂ : List (Migration σ α ε)}
    (hp : l₁.Perm l₂) (h : l₁.Pairwise (fun a b => a.name ≠ b.name)) :
    l₂.Pairwise (fun a b => a.name ≠ b.name) := by
  refine (List.Perm.pairwise_iff ?_ hp).mp h
  intro a b hab
  exact hab.symm

/-- Unfolding equation for one step of the application loop. -/
theorem applyMigrations_cons {σ α ε : Type} (m : Migration σ α ε)
    (rest : List (Migration σ α ε)) (ctx : σ) :
    applyMigrations (m :: rest) ctx =
      match m.actions.prepare ctx with
      | Except.error e => Except.error (m.name, e)
      | Except.ok (artifact, ctx1) =>
        match m.actions.enact ctx1 artifact with
        | Except.error e => Except.error (m.name, e)
        | Except.ok ctx2 => applyMigrations rest ctx2 :=
  rfl

/-- Two sorted lists of migrations with pairwise distinct names that are
permutations of each other are equal. -/
theorem sortMigrations_eq {σ α ε : Type} (s₁ s₂ : List (Migration σ α ε))
    (hperm : s₁.Perm s₂) (hnodup : (s₁.map Migration.name).Nodup) :
    sortMigrations s₁ = sortMigrations s₂ := by
  have h1 : (sortMigrations s₁).Perm (sortMigrations s₂) :=
    (sortMigrations_perm s₁).trans (hperm.trans (sortMigrations_perm s₂).symm)
  have hp1 : s₁.Pairwise (fun a b => a.name ≠ b.name) := by
    rw [List.Nodup, List.pairwise_map] at hnodup
    exact hnodup
  have hn1 : (sortMigrations s₁).Pairwise (fun a b => a.name ≠ b.name) :=
    pairwise_ne_of_perm (sortMigrations_perm s₁).symm hp1
  have hn2 : (sortMigrations s₂).Pairwise (fun a b => a.name ≠ b.name) :=
    pairwise_ne_of_perm (sortMigrations_perm s₂).symm (pairwise_ne_of_perm hperm hp1)
  have hstrict1 : (sortMigrations s₁).Pairwise
      (fun a b => migLe a b ∧ a.name ≠ b.name) :=
    (sortMigrations_sorted s₁).and hn1
  have hstrict2 : (sortMigrations s₂).Pairwise
      (fun a b => migLe a b ∧ a.name ≠ b.name) :=
    (sortMigrations_sorted s₂).and hn2
  letI : IsAntisymm (Migration σ α ε) (fun a b => migLe a b ∧ a.name ≠ b.name) :=
    ⟨fun a b hab hba => by
      exact absurd (str_ext (lexLeb_antisymm _ _ hab.1 hba.1)) hab.2⟩
  exact List.eq_of_perm_of_sorted h1 hstrict1 hstrict2

/-- C5: the application sequence a solution executes is the subset
sorted by name ascending, the same for any two discovery orders of the
same subset, and so is the executed application itself. -/
theorem sequence_is_sorted_subset {σ α ε : Type} (s₁ s₂ : List (Migration σ α ε))
    (hperm : s₁.Perm s₂) (hnodup : (s₁.map Migration.name).Nodup) :
    sortMigrations s₁ = sortMigrations s₂ ∧
    (sortMigrations s₁).Perm s₁ ∧
    (sortMigrations s₁).Sorted migLe ∧
    ∀ ctx : σ, runSolution s₁ ctx = runSolution s₂ ctx := by
  have heq := sortMigrations_eq s₁ s₂ hperm hnodup
  exact ⟨heq, sortMigrations_perm s₁, sortMigrations_sorted s₁, fun ctx => by
    unfold runSolution
    rw [heq]⟩

theorem applyMigrations_append {σ α ε : Type} (l₁ l₂ : List (Migration σ α ε)) (ctx : σ) :
    applyMigrations (l₁ ++ l₂) ctx =
      match applyMigrations l₁ ctx with
      | Except.ok c => applyMigrations l₂ c
      | Except.error e => Except.error e := by
  induction l₁ generalizing ctx with
  | nil => rfl
  | cons m rest ih =>
    rw [List.cons_append, applyMigrations_cons, applyMigrations_cons]
    cases m.actions.prepare ctx with
    | error e => simp only []
    | ok p =>
      obtain ⟨artifact, ctx1⟩ := p
      simp only []
      cases m.actions.enact ctx1 artifact with
      | error e => simp only []
      | ok ctx2 =>
        simp only []
        exact ih ctx2

/-- C4: fail-fast application.  If the sorted sequence of a scenario is
`pre ++ b :: post`, the migrations of `pre` all succeed and `b`'s
`prepare` or `enact` fails with `e`, then the solution fails with `e`
tagged with `b`'s name, and the result is the same for every
continuation `post'` in place of `post`: the later migrations' `prepare`
and `enact` are never invoked. -/
theorem apply_fail_fast {σ α ε : Type} (migrationList pre post : List (Migration σ α ε))
    (b : Migration σ α ε)
    (hsort : sortMigrations migrationList = pre ++ b :: post)
    (ctx ctx1 : σ) (hpre : applyMigrations pre ctx = Except.ok ctx1) (e : ε)
    (hfail : b.actions.prepare ctx1 = Except.error e ∨
      ∃ artifact ctx2, b.actions.prepare ctx1 = Except.ok (artifact, ctx2) ∧
        b.actions.enact ctx2 artifact = Except.error e) :
    runSolution migrationList ctx = Except.error (b.name, e) ∧
    ∀ post' : List (Migration σ α ε),
      applyMigrations (pre ++ b :: post') ctx = Except.error (b.name, e) := by
  have hcons : ∀ post' : List (Migration σ α ε),
      applyMigrations (pre ++ b :: post') ctx = Except.error (b.name, e) := by
    intro post'
    rw [applyMigrations_append, hpre]
    show applyMigrations (b :: post') ctx1 = Except.error (b.name, e)
    rw [applyMigrations_cons]
    rcases hfail with hf | ⟨artifact, ctx2, hp, he⟩
    · rw [hf]
    · rw [hp]
      simp only []
      rw [he]
  constructor
  · unfold runSolution
    rw [hsort]
    exact hcons post
  · exact hcons

/-- Running a guarded pair twice is the same as running it once, as soon
as a successful effect falsifies the precondition. -/
theorem runIfNeeded_twice {σ : Type} (pre : σ → Bool) (eff : σ → σ)
    (h : ∀ s, pre s = true → pre (eff s) = false) (s : σ) :
    runIfNeeded pre eff (runIfNeeded pre eff s) = runIfNeeded pre eff s := by
  unfold runIfNeeded
  by_cases hp : pre s = true
  · rw [if_pos hp, if_neg (by rw [h s hp]; exact Bool.false_ne_true)]
  · rw [if_neg hp, if_neg hp]

/-- C8: every guarded action of the goerli/usdc deployment steps closes
its own precondition (after a successful effect the precondition is
false) and is idempotent: running the guarded pair twice leaves the
observable target state exactly as running it once. -/
theorem goerli_guarded_idempotent (usdcProxyAdminAddress : Nat)
    (ga : GuardedAction GoerliState)
    (hga : ga ∈ goerliGuardedActions usdcProxyAdminAddress) :
    (∀ s, ga.pre s = true → ga.pre (ga.eff s) = false) ∧
    (∀ s, runIfNeeded ga.pre ga.eff (runIfNeeded ga.pre ga.eff s)
      = runIfNeeded ga.pre ga.eff s) := by
  have hclose : ∀ s, ga.pre s = true → ga.pre (ga.eff s) = false := by
    simp only [goerliGuardedActions, List.mem_cons, List.not_mem_nil, or_false] at hga
    rcases hga with rfl | rfl | rfl | rfl | rfl
    · intro s _
      simp [usdcAdminAction]
    · intro s _
      simp only [compSeedAction, beq_eq_false_iff_ne, ne_eq]
      have : 0 < exp 1000000 18 := by
        unfold exp floor
        norm_num
      omega
    · intro s hs
      simp only [wethMintAction, decide_eq_true_eq] at hs
      simp only [wethMintAction, decide_eq_false_iff_not, not_lt]
      omega
    · intro s _
      simp only [usdcMintAction, beq_eq_false_iff_ne, ne_eq]
      have : 0 < exp 100000000 6 := by
        unfold exp floor
        norm_num
      omega
    · intro s _
      simp only [wbtcMintAction, beq_eq_false_iff_ne, ne_eq]
      have : 0 < exp 20 8 := by
        unfold exp floor
        norm_num
      omega
  exact ⟨hclose, runIfNeeded_twice ga.pre ga.eff hclose⟩

theorem pack_unpack_roundTrip_witness :
    ∃ out, packAssetConfig demoAssetAddress demoAssetConfig = Except.ok out := by
  obtain ⟨out, hout, -⟩ := pack_unpack_roundTrip demoAssetAddress demoAssetConfig
    (by decide) (by decide)
    (by norm_num [demoAssetConfig]) (by norm_num [demoAssetConfig])
    (by norm_num [demoAssetConfig]) (by norm_num [demoAssetConfig])
    (by norm_num [demoAssetConfig]) (by norm_num [demoAssetConfig])
    (by norm_num [demoAssetConfig]) (by norm_num [demoAssetConfig])
  exact ⟨out, hout⟩

theorem solve_enumerates_powerset_witness :
    (MigrationConstraint.solve demoCatalog).length = 2 ^ demoCatalog.length :=
  (solve_enumerates_powerset demoCatalog (by decide)).1

theorem pack_places_fields_witness :
    ∃ out, packAssetConfig demoAssetAddress2 demoAssetConfig = Except.ok out :=
  ⟨_, pack_places_fields demoAssetAddress2 demoAssetConfig (by decide) (by decide)
    (by norm_num [demoAssetConfig]) (by norm_num [demoAssetConfig])
    (by norm_num [demoAssetConfig]) (by norm_num [demoAssetConfig])
    (by norm_num [demoAssetConfig]) (by norm_num [demoAssetConfig])
    (by norm_num [demoAssetConfig]) (by norm_num [demoAssetConfig])⟩

theorem apply_fail_fast_witness :
    runSolution [demoMigC, demoMigB, demoMigA] 0 = Except.error ("b", "boom") :=
  (apply_fail_fast [demoMigC, demoMigB, demoMigA] [demoMigA] [demoMigC] demoMigB rfl
    0 0 rfl "boom" (Or.inr ⟨(), 0, rfl, rfl⟩)).1

theorem sequence_is_sorted_subset_witness :
    sortMigrations [demoMigB, demoMigA] = sortMigrations [demoMigA, demoMigB] :=
  (sequence_is_sorted_subset [demoMigB, demoMigA] [demoMigA, demoMigB]
    (List.Perm.swap demoMigA demoMigB []) (by decide)).1

theorem pack_outOfRange_iff_witness :
    ∃ out, packAssetConfig demoAssetAddress demoBoundaryConfig = Except.ok out :=
  (pack_outOfRange_iff demoAssetAddress demoBoundaryConfig (by decide) (by decide)).2
    (by norm_num [demoBoundaryConfig]) (by norm_num [demoBoundaryConfig])
    (by norm_num [demoBoundaryConfig])

theorem percentage_exact_floor_witness :
    percentage (4 / 5) = Except.ok 800000000000000000 := by
  rw [percentage_exact_floor (4 / 5) (by norm_num) (by norm_num)]
  congr 1
  rw [show (4 / 5 : ℚ) * 10 ^ 18 = ((800000000000000000 : ℤ) : ℚ) by norm_num]
  exact Int.floor_intCast _

theorem goerli_guarded_idempotent_witness :
    compSeedAction.pre (compSeedAction.eff demoState) = false :=
  (goerli_guarded_idempotent 1 compSeedAction (by simp [goerliGuardedActions])).1
    demoState (by decide)

theorem pack_invalidAddress_witness :
    packAssetConfig demoAssetAddress demoBadFeedConfig
      = Except.error CodecError.invalidAddress :=
  pack_invalidAddress demoAssetAddress demoBadFeedConfig (by decide)

theorem word_a_fields_recoverable_witness :
    ∃ out, packAssetConfig demoAssetAddress3 demoAssetConfig = Except.ok out ∧
      out.word_a.toNat &&& (2 ^ 160 - 1) = hexNat (demoAssetAddress3.drop 2).toList := by
  obtain ⟨out, h1, hb1, hb2, hb3, hlt, h6, h7, h8, h9⟩ :=
    word_a_fields_recoverable demoAssetAddress3 demoAssetConfig (by decide) (by decide)
      (by norm_num [demoAssetConfig]) (by norm_num [demoAssetConfig])
      (by norm_num [demoAssetConfig]) (by norm_num [demoAssetConfig])
      (by norm_num [demoAssetConfig]) (by norm_num [demoAssetConfig])
      (by norm_num [demoAssetConfig]) (by norm_num [demoAssetConfig])
  exact ⟨out, h1, h6⟩

end Comet
